import Mathlib

/-!
Verification development for the stepwise simulation-advance harness
(`testcase.py`, class `TestCase`).

Modelling conventions:
* Python floats are modelled as `Int` (every claim is an order/control-flow
  property; no division or rounding occurs in the source).
* Python dicts are modelled as association lists `Assoc α` over `String`
  keys (a dict never has duplicate keys; lookup finds the first match).
* The pyfmi FMU is external: `fmu.simulate` is a function parameter of
  `advance`; its result object `res` is an association list from variable
  name (including `"time"`) to the sampled sequence for the step.
* Mutation is explicit state passing on `TCState`.  An uncaught Python
  exception leaves the object in its partially-mutated state, so `advance`
  returns the post-call state together with an `Except` outcome.
* The Python attribute `tic_time` is created only by a successful
  `advance` (line 148) and never deleted; `has_tic` records whether the
  attribute exists (`hasattr(self, 'tic_time')`, line 93).
* The source's initialization-flag attribute is rendered as `init_flag`,
  and the corresponding options-dict entry as `options_init_flag`.
-/

abbrev Assoc (α : Type) := List (String × α)

/-- Python dict lookup `d[k]` (first matching key, `none` = `KeyError`). -/
def alookup {α : Type} : Assoc α → String → Option α
  | [], _ => none
  | (k, v) :: rest, key => if key = k then some v else alookup rest key

/-- Python dict assignment `d[k] = v` for a key already present
(every entry with that key is replaced; a dict holds each key once). -/
def aupd {α : Type} : Assoc α → String → α → Assoc α
  | [], _, _ => []
  | (k', w) :: rest, k, v => (if k' = k then (k', v) else (k', w)) :: aupd rest k v

/-- `'_activate' in key` (Python substring test, line 117 of the source). -/
def hasActivate : List Char → Bool
  | [] => false
  | c :: rest => "_activate".toList.isPrefixOf (c :: rest) || hasActivate rest

def isActivate (key : String) : Bool := hasActivate key.toList

/-- A value of the request dict `u` passed to `advance`.  `num` is a Python
number, `str` a Python string together with the result of `float(·)` on it
(`none` when `float` raises), `null` is Python `None`. -/
inductive ReqVal where
  | num (x : Int)
  | str (s : String) (parsed : Option Int)
  | null
deriving DecidableEq, Repr

/-- Python truthiness of a request value (`if u[key]:`, lines 106 and 114). -/
def ReqVal.truthy : ReqVal → Bool
  | .num x => x != 0
  | .str s _ => s != ""
  | .null => false

/-- `float(u[key])` (line 115): `none` means the coercion raises. -/
def ReqVal.toFloat : ReqVal → Option Int
  | .num x => some x
  | .str _ p => p
  | .null => none

/-- Metadata record built by `_get_var_metadata` (lines 400-403). -/
structure VarMeta where
  unit : Option String
  description : Option String
  minimum : Option Int
  maximum : Option Int
deriving DecidableEq, Repr

/-- The reasons an `advance` call can raise. -/
inductive Err where
  | coercion      -- float() raised on a request value      (line 115)
  | keyErr        -- a dict lookup raised KeyError          (lines 427, 139, 142)
  | noneCompare   -- comparison against a None bound        (lines 430/433; never
                  -- reached from advance: bounds are declared numbers exactly
                  -- for the non-flag non-time inputs that advance clamps)
  | indexErr      -- res[key][-1] on an empty sequence      (line 138)
  | engine        -- fmu.simulate raised                    (line 132)
deriving DecidableEq, Repr

/-- The input object built at line 123: `(u_list, np.transpose(u_trajectory))`
where `u_trajectory` is the start time stacked with one checked value per
written key. -/
structure InputObject where
  names : List String
  t0 : Int
  values : List Int
deriving DecidableEq, Repr

/-- The FMU catalog as seen by the constructor (external, queried once). -/
structure Fmu where
  input_names : List String
  output_names : List String
  varUnit : String → String
  varDescription : String → String
  varMin : String → Int
  varMax : String → Int

/-- The static configuration `con` (`config.get_config()`). -/
structure Config where
  fmu : Fmu
  step0 : Int      -- con['step']
  horizon0 : Int   -- con['horizon']
  interval0 : Int  -- con['interval']

/-- `_get_var_metadata` (lines 353-405). -/
def get_var_metadata (fmu : Fmu) (var_list : List String) (inputs : Bool) :
    Assoc VarMeta :=
  var_list.map (fun var =>
    if var = "time" then
      (var, ⟨some "s", some "Time of simulation", none, none⟩)
    else if isActivate var then
      (var, ⟨none, some (fmu.varDescription var), none, none⟩)
    else
      (var, ⟨some (fmu.varUnit var), some (fmu.varDescription var),
             if inputs then some (fmu.varMin var) else none,
             if inputs then some (fmu.varMax var) else none⟩))

/-- Harness state: the instance fields of `TestCase`. -/
structure TCState where
  inputs_metadata : Assoc VarMeta
  outputs_metadata : Assoc VarMeta
  y : Assoc (Option Int)        -- last sample (none = the initial [] placeholder)
  y_store : Assoc (List Int)
  u : Assoc (List Int)          -- self.u, set at construction, never updated
  u_store : Assoc (List Int)
  step : Int
  horizon : Int
  interval : Int
  start_time : Int
  final_time : Option Int       -- attribute first created during advance
  init_flag : Bool              -- the source's initialization flag field
  options_init_flag : Bool      -- options dict entry for that flag
  elapsed_control_time : List Int
  hasTic : Bool                 -- hasattr(self, 'tic_time')
  ticTime : Int
  tacTime : Option Int
deriving DecidableEq, Repr

/-- `__init__` (lines 23-73), with the external FMU/config as parameter. -/
def initState (c : Config) : TCState :=
  { inputs_metadata := get_var_metadata c.fmu c.fmu.input_names true
    outputs_metadata := get_var_metadata c.fmu c.fmu.output_names false
    y := ("time", none) :: c.fmu.output_names.map (fun k => (k, none))
    y_store := ("time", []) :: c.fmu.output_names.map (fun k => (k, []))
    u := ("time", []) :: c.fmu.input_names.map (fun k => (k, []))
    u_store := ("time", []) :: c.fmu.input_names.map (fun k => (k, []))
    step := c.step0
    horizon := c.horizon0
    interval := c.interval0
    start_time := 0
    final_time := none
    init_flag := true
    options_init_flag := true
    elapsed_control_time := []
    hasTic := false
    ticTime := 0
    tacTime := none }

/-- `reset` (lines 152-157) re-runs `__init__`; attributes that `__init__`
does not assign (`tic_time`, `tac_time`, `final_time`) keep their values. -/
def reset (c : Config) (s : TCState) : TCState :=
  { initState c with
      hasTic := s.hasTic
      ticTime := s.ticTime
      tacTime := s.tacTime
      final_time := s.final_time }

/-- `_check_value_min_max` (lines 407-439). -/
def check_value_min_max (meta : Assoc VarMeta) (var : String) (value : Int) :
    Except Err Int :=
  match alookup meta var with
  | none => .error .keyErr
  | some m =>
    match m.minimum, m.maximum with
    | some mini, some maxi =>
      if value > maxi then .ok maxi
      else if value < mini then .ok mini
      else .ok value
    | _, _ => .error .noneCompare

/-- The per-key body of the trajectory-construction loop (lines 113-122):
skip `'time'` and falsy values, coerce, clamp non-flag variables, and
accumulate name/value pairs in iteration order. -/
def buildList (meta : Assoc VarMeta) : Assoc ReqVal →
    Except Err (List String × List Int)
  | [] => .ok ([], [])
  | (key, v) :: rest =>
    if (key != "time") && v.truthy then
      match v.toFloat with
      | none => .error .coercion
      | some value =>
        match (if !(isActivate key) then check_value_min_max meta key value
               else .ok value) with
        | .error e => .error e
        | .ok cv =>
          match buildList meta rest with
          | .error e => .error e
          | .ok p => .ok (key :: p.1, cv :: p.2)
    else buildList meta rest

/-- Trajectory construction (lines 101-129): `none` = `input_object = None`. -/
def buildInput (meta : Assoc VarMeta) (t0 : Int) (u : Assoc ReqVal) :
    Except Err (Option InputObject) :=
  if u.isEmpty then .ok none
  else if u.any (fun kv => kv.2.truthy) then
    match buildList meta u with
    | .error e => .error e
    | .ok p => .ok (some ⟨p.1, t0, p.2⟩)
  else .ok none

/-- Latency capture (lines 93-95). -/
def latencyUpdate (n : Int) (s : TCState) : TCState :=
  if s.hasTic then
    { s with
        tacTime := some n
        elapsed_control_time := s.elapsed_control_time ++ [n - s.ticTime] }
  else s

/-- The measurement-store loop (lines 137-139): for each key of `self.y`
in order, set `y[key] = res[key][-1]` and append `res[key][1:]` to
`y_store[key]`.  The third component reports the first raised exception;
dict updates already performed remain in place. -/
def yLoop (res : Assoc (List Int)) :
    List String → Assoc (Option Int) → Assoc (List Int) →
    Assoc (Option Int) × Assoc (List Int) × Option Err
  | [], y, st => (y, st, none)
  | k :: ks, y, st =>
    match alookup res k with
    | none => (y, st, some .keyErr)
    | some r =>
      match r.getLast? with
      | none => (y, st, some .indexErr)
      | some last =>
        match alookup st k with
        | none => (aupd y k (some last), st, some .keyErr)
        | some cur => yLoop res ks (aupd y k (some last)) (aupd st k (cur ++ r.drop 1))

/-- The control-input-store loop (lines 141-142). -/
def uLoop (res : Assoc (List Int)) :
    List String → Assoc (List Int) → Assoc (List Int) × Option Err
  | [], st => (st, none)
  | k :: ks, st =>
    match alookup res k with
    | none => (st, some .keyErr)
    | some r =>
      match alookup st k with
      | none => (st, some .keyErr)
      | some cur => uLoop res ks (aupd st k (cur ++ r.drop 1))

/-- The external `fmu.simulate`: receives start time, final time, the
initialization option and the input object; may raise. -/
abbrev SimFn := Int → Int → Bool → Option InputObject → Except Unit (Assoc (List Int))

/-- `advance` (lines 75-150).  `n` and `n'` are the wall-clock readings of
the two `time.time()` calls (lines 94 and 148).  Returns the state of the
object after the call (partially mutated if an exception escaped) and
either the returned sample dict or the exception. -/
def advance (sim : SimFn) (n n' : Int) (s0 : TCState) (u : Assoc ReqVal) :
    TCState × Except Err (Assoc (Option Int)) :=
  let s1 := latencyUpdate n s0
  let ft := s1.start_time + s1.step
  let s2 := { s1 with final_time := some ft }
  match buildInput s2.inputs_metadata s2.start_time u with
  | .error e => (s2, .error e)
  | .ok io =>
    let s3 := { s2 with options_init_flag := s2.init_flag }
    match sim s3.start_time ft s3.options_init_flag io with
    | .error _ => (s3, .error .engine)
    | .ok res =>
      match yLoop res (s3.y.map Prod.fst) s3.y s3.y_store with
      | (y1, yst1, some e) => ({ s3 with y := y1, y_store := yst1 }, .error e)
      | (y1, yst1, none) =>
        let s4 := { s3 with y := y1, y_store := yst1 }
        match uLoop res (s4.u.map Prod.fst) s4.u_store with
        | (ust1, some e) => ({ s4 with u_store := ust1 }, .error e)
        | (ust1, none) =>
          let s5 := { s4 with
                        u_store := ust1
                        start_time := ft
                        init_flag := false
                        ticTime := n'
                        hasTic := true }
          (s5, .ok s5.y)

/-- `get_step` (lines 159-162). -/
def get_step (s : TCState) : Int := s.step

/-- `set_step` (lines 164-180). -/
def set_step (s : TCState) (st : Int) : TCState := { s with step := st }

/-- `get_results` (lines 218-238). -/
def get_results (s : TCState) : Assoc (List Int) × Assoc (List Int) :=
  (s.y_store, s.u_store)

/-- `set_forecast_parameters` (lines 263-282). -/
def set_forecast_parameters (s : TCState) (h i : Int) : TCState :=
  { s with horizon := h, interval := i }

/-- `get_forecast_parameters` (lines 284-291). -/
def get_forecast_parameters (s : TCState) : Int × Int := (s.horizon, s.interval)

/-- `get_elapsed_control_time` (lines 335-351). -/
def get_elapsed_control_time (s : TCState) : List Int := s.elapsed_control_time

/-- An engine that returns the given result object. -/
def constSim (res : Assoc (List Int)) : SimFn := fun _ _ _ _ => .ok res

/-- An engine whose step raises. -/
def failSim : SimFn := fun _ _ _ _ => .error ()

/-- The stored simulated-time history `y_store['time']`. -/
def timeHist (s : TCState) : List Int := (alookup s.y_store "time").getD []

-- sanity examples (concrete evaluation of the embedding)
example : isActivate "oveAct_activate" = true := by decide
example : isActivate "oveHeaPum_u" = false := by decide
example : (ReqVal.num 0).truthy = false := by decide

/-! ### Association-list lemmas -/

lemma aupd_not_mem {α : Type} {k : String} (v : α) {d : Assoc α}
    (h : k ∉ d.map Prod.fst) : aupd d k v = d := by
  induction d with
  | nil => rfl
  | cons kv rest ih =>
    simp only [List.map_cons, List.mem_cons, not_or] at h
    cases kv with
    | mk k' w =>
      simp only [aupd, if_neg (fun hh : k' = k => h.1 hh.symm)]
      exact congrArg _ (ih h.2)

lemma alookup_map_modify {α β : Type} (f : String → α → β) (d : Assoc α)
    (k : String) :
    alookup (d.map (fun kv => (kv.1, f kv.1 kv.2))) k = (alookup d k).map (f k) := by
  induction d with
  | nil => rfl
  | cons kv rest ih =>
    cases kv with
    | mk k' w =>
      by_cases hk : k = k'
      · subst hk
        simp [alookup]
      · simp [alookup, hk, ih]

lemma map_fst_modify {α β : Type} (f : String → α → β) (d : Assoc α) :
    (d.map (fun kv => (kv.1, f kv.1 kv.2))).map Prod.fst = d.map Prod.fst := by
  induction d with
  | nil => rfl
  | cons kv rest ih => simp [ih]

/-! ### Field lemmas for the latency-capture step -/

@[simp] lemma latencyUpdate_inputs_metadata (n : Int) (s : TCState) :
    (latencyUpdate n s).inputs_metadata = s.inputs_metadata := by
  unfold latencyUpdate; split <;> rfl

@[simp] lemma latencyUpdate_outputs_metadata (n : Int) (s : TCState) :
    (latencyUpdate n s).outputs_metadata = s.outputs_metadata := by
  unfold latencyUpdate; split <;> rfl

@[simp] lemma latencyUpdate_y (n : Int) (s : TCState) :
    (latencyUpdate n s).y = s.y := by
  unfold latencyUpdate; split <;> rfl

@[simp] lemma latencyUpdate_y_store (n : Int) (s : TCState) :
    (latencyUpdate n s).y_store = s.y_store := by
  unfold latencyUpdate; split <;> rfl

@[simp] lemma latencyUpdate_u (n : Int) (s : TCState) :
    (latencyUpdate n s).u = s.u := by
  unfold latencyUpdate; split <;> rfl

@[simp] lemma latencyUpdate_u_store (n : Int) (s : TCState) :
    (latencyUpdate n s).u_store = s.u_store := by
  unfold latencyUpdate; split <;> rfl

@[simp] lemma latencyUpdate_step (n : Int) (s : TCState) :
    (latencyUpdate n s).step = s.step := by
  unfold latencyUpdate; split <;> rfl

@[simp] lemma latencyUpdate_horizon (n : Int) (s : TCState) :
    (latencyUpdate n s).horizon = s.horizon := by
  unfold latencyUpdate; split <;> rfl

@[simp] lemma latencyUpdate_interval (n : Int) (s : TCState) :
    (latencyUpdate n s).interval = s.interval := by
  unfold latencyUpdate; split <;> rfl

@[simp] lemma latencyUpdate_start_time (n : Int) (s : TCState) :
    (latencyUpdate n s).start_time = s.start_time := by
  unfold latencyUpdate; split <;> rfl

@[simp] lemma latencyUpdate_final_time (n : Int) (s : TCState) :
    (latencyUpdate n s).final_time = s.final_time := by
  unfold latencyUpdate; split <;> rfl

@[simp] lemma latencyUpdate_init_flag (n : Int) (s : TCState) :
    (latencyUpdate n s).init_flag = s.init_flag := by
  unfold latencyUpdate; split <;> rfl

@[simp] lemma latencyUpdate_options_init_flag (n : Int) (s : TCState) :
    (latencyUpdate n s).options_init_flag = s.options_init_flag := by
  unfold latencyUpdate; split <;> rfl

@[simp] lemma latencyUpdate_hasTic (n : Int) (s : TCState) :
    (latencyUpdate n s).hasTic = s.hasTic := by
  unfold latencyUpdate; split <;> rfl

@[simp] lemma latencyUpdate_ticTime (n : Int) (s : TCState) :
    (latencyUpdate n s).ticTime = s.ticTime := by
  unfold latencyUpdate; split <;> rfl

@[simp] lemma latencyUpdate_elapsed (n : Int) (s : TCState) :
    (latencyUpdate n s).elapsed_control_time =
      s.elapsed_control_time ++ (if s.hasTic then [n - s.ticTime] else []) := by
  unfold latencyUpdate
  by_cases h : s.hasTic <;> simp [h]

/-! ### The store-merge loops, under the dict well-formedness that holds in
every reachable state (distinct keys; `y`/`y_store` and `u`/`u_store` share
their key lists) -/

lemma yLoop_skip (res : Assoc (List Int)) (k : String) (a : Option Int)
    (b : List Int) :
    ∀ (ks : List String) (y : Assoc (Option Int)) (st : Assoc (List Int)),
    k ∉ ks →
    yLoop res ks ((k, a) :: y) ((k, b) :: st) =
      ((k, a) :: (yLoop res ks y st).1,
       (k, b) :: (yLoop res ks y st).2.1,
       (yLoop res ks y st).2.2)
  | [], y, st, _ => rfl
  | k' :: ks, y, st, h => by
    simp only [List.mem_cons, not_or] at h
    have hne : ¬ (k' = k) := fun hh => h.1 hh.symm
    cases hres : alookup res k' with
    | none => simp [yLoop, hres]
    | some r =>
      cases hlast : r.getLast? with
      | none => simp [yLoop, hres, hlast]
      | some last =>
        have hlook : alookup ((k, b) :: st) k' = alookup st k' := by
          simp [alookup, hne]
        cases hst : alookup st k' with
        | none =>
          simp [yLoop, hres, hlast, hlook, hst, aupd, if_neg (fun hh : k = k' => hne hh.symm)]
        | some cur =>
          have : aupd ((k, a) :: y) k' (some last) = (k, a) :: aupd y k' (some last) := by
            simp [aupd, if_neg (fun hh : k = k' => hne hh.symm)]
          simp only [yLoop, hres, hlast, hlook, hst, this]
          have hupd : aupd ((k, b) :: st) k' (cur ++ r.drop 1) =
              (k, b) :: aupd st k' (cur ++ r.drop 1) := by
            simp [aupd, if_neg (fun hh : k = k' => hne hh.symm)]
          rw [hupd]
          exact yLoop_skip res k a b ks _ _ h.2

lemma uLoop_skip (res : Assoc (List Int)) (k : String) (b : List Int) :
    ∀ (ks : List String) (st : Assoc (List Int)),
    k ∉ ks →
    uLoop res ks ((k, b) :: st) =
      ((k, b) :: (uLoop res ks st).1, (uLoop res ks st).2)
  | [], st, _ => rfl
  | k' :: ks, st, h => by
    simp only [List.mem_cons, not_or] at h
    have hne : ¬ (k' = k) := fun hh => h.1 hh.symm
    cases hres : alookup res k' with
    | none => simp [uLoop, hres]
    | some r =>
      have hlook : alookup ((k, b) :: st) k' = alookup st k' := by
        simp [alookup, hne]
      cases hst : alookup st k' with
      | none => simp [uLoop, hres, hlook, hst]
      | some cur =>
        have hupd : aupd ((k, b) :: st) k' (cur ++ r.drop 1) =
            (k, b) :: aupd st k' (cur ++ r.drop 1) := by
          simp [aupd, if_neg (fun hh : k = k' => hne hh.symm)]
        simp only [uLoop, hres, hlook, hst, hupd]
        exact uLoop_skip res k b ks _ h.2

lemma uLoop_ok (res : Assoc (List Int)) :
    ∀ (st : Assoc (List Int)),
    (st.map Prod.fst).Nodup →
    (∀ k ∈ st.map Prod.fst, (alookup res k).isSome) →
    uLoop res (st.map Prod.fst) st =
      (st.map (fun kv => (kv.1, kv.2 ++ ((alookup res kv.1).getD []).drop 1)), none)
  | [], _, _ => rfl
  | (k, v) :: t, hnd, hcov => by
    simp only [List.map_cons, List.nodup_cons] at hnd
    obtain ⟨hknot, hndt⟩ := hnd
    have hk : (alookup res k).isSome := hcov k (by simp)
    obtain ⟨r, hr⟩ := Option.isSome_iff_exists.mp hk
    have hlook : alookup ((k, v) :: t) k = some v := by simp [alookup]
    have hupd : aupd ((k, v) :: t) k (v ++ r.drop 1) =
        (k, v ++ r.drop 1) :: t := by
      simp only [aupd, if_pos rfl]
      exact congrArg _ (aupd_not_mem _ hknot)
    simp only [List.map_cons, uLoop, hr, hlook, hupd]
    rw [uLoop_skip res k (v ++ r.drop 1) (t.map Prod.fst) t hknot]
    rw [uLoop_ok res t hndt (fun k' hk' => hcov k' (by simp [hk']))]
    simp [hr]

lemma yLoop_ok (res : Assoc (List Int)) :
    ∀ (st : Assoc (List Int)) (y : Assoc (Option Int)),
    y.map Prod.fst = st.map Prod.fst →
    (st.map Prod.fst).Nodup →
    (∀ k ∈ st.map Prod.fst, ∃ r, alookup res k = some r ∧ r ≠ []) →
    yLoop res (st.map Prod.fst) y st =
      (st.map (fun kv => (kv.1, ((alookup res kv.1).getD []).getLast?)),
       st.map (fun kv => (kv.1, kv.2 ++ ((alookup res kv.1).getD []).drop 1)),
       none)
  | [], y, hky, _, _ => by
    cases y with
    | nil => rfl
    | cons a b => simp at hky
  | (k, v) :: t, y, hky, hnd, hcov => by
    cases y with
    | nil => simp at hky
    | cons ka yt =>
      cases ka with
      | mk k₀ a =>
        simp only [List.map_cons, List.cons.injEq] at hky
        obtain ⟨hk0, hkyt⟩ := hky
        subst hk0
        simp only [List.map_cons, List.nodup_cons] at hnd
        obtain ⟨hknot, hndt⟩ := hnd
        obtain ⟨r, hr, hrne⟩ := hcov k₀ (by simp)
        have hlast : r.getLast? = some (r.getLast hrne) :=
          List.getLast?_eq_getLast r hrne
        have hlook : alookup ((k₀, v) :: t) k₀ = some v := by simp [alookup]
        have huy : aupd ((k₀, a) :: yt) k₀ (some (r.getLast hrne)) =
            (k₀, some (r.getLast hrne)) :: yt := by
          simp only [aupd, if_pos rfl]
          refine congrArg _ (aupd_not_mem _ ?_)
          rw [hkyt]; exact hknot
        have hust : aupd ((k₀, v) :: t) k₀ (v ++ r.drop 1) =
            (k₀, v ++ r.drop 1) :: t := by
          simp only [aupd, if_pos rfl]
          exact congrArg _ (aupd_not_mem _ hknot)
        simp only [List.map_cons, yLoop, hr, hlast, hlook, huy, hust]
        rw [yLoop_skip res k₀ (some (r.getLast hrne)) (v ++ r.drop 1)
              (t.map Prod.fst) yt t hknot]
        rw [yLoop_ok res t yt hkyt hndt
              (fun k' hk' => hcov k' (by simp [hk']))]
        simp [hr, hlast]

@[simp] lemma latencyUpdate_tacTime (n : Int) (s : TCState) :
    (latencyUpdate n s).tacTime = if s.hasTic then some n else s.tacTime := by
  unfold latencyUpdate
  by_cases h : s.hasTic <;> simp [h]

/-! ### Equational characterizations of `advance` -/

/-- When trajectory construction raises (e.g. an uncoercible value), the
call aborts there: only the latency capture and the `final_time`
assignment have mutated the object. -/
lemma advance_buildFail (sim : SimFn) (n n' : Int) (s0 : TCState)
    (u : Assoc ReqVal) (e : Err)
    (h : buildInput s0.inputs_metadata s0.start_time u = .error e) :
    advance sim n n' s0 u =
      ({ s0 with
           final_time := some (s0.start_time + s0.step)
           elapsed_control_time :=
             s0.elapsed_control_time ++ (if s0.hasTic then [n - s0.ticTime] else [])
           tacTime := if s0.hasTic then some n else s0.tacTime },
       .error e) := by
  simp [advance, h]

/-- When the engine raises, the call aborts there: latency capture,
`final_time` and the options flag have mutated; clock, stores, last
sample and the initialization flag are untouched. -/
lemma advance_engineFail (sim : SimFn) (n n' : Int) (s0 : TCState)
    (u : Assoc ReqVal) (io : Option InputObject)
    (h : buildInput s0.inputs_metadata s0.start_time u = .ok io)
    (hsim : sim s0.start_time (s0.start_time + s0.step) s0.init_flag io =
      .error ()) :
    advance sim n n' s0 u =
      ({ s0 with
           final_time := some (s0.start_time + s0.step)
           options_init_flag := s0.init_flag
           elapsed_control_time :=
             s0.elapsed_control_time ++ (if s0.hasTic then [n - s0.ticTime] else [])
           tacTime := if s0.hasTic then some n else s0.tacTime },
       .error .engine) := by
  simp [advance, h, hsim]

/-- Full characterization of a successful `advance` against an engine that
returns `res`, for a state whose dicts are well-formed (distinct keys,
`y`/`y_store` and `u`/`u_store` sharing key lists) and an engine result
that covers every stored variable with a non-empty sequence. -/
lemma advance_ok_eq (res : Assoc (List Int)) (n n' : Int) (s0 : TCState)
    (u : Assoc ReqVal) (io : Option InputObject)
    (hk : s0.y.map Prod.fst = s0.y_store.map Prod.fst)
    (hnd : (s0.y_store.map Prod.fst).Nodup)
    (huk : s0.u.map Prod.fst = s0.u_store.map Prod.fst)
    (hund : (s0.u_store.map Prod.fst).Nodup)
    (hycov : ∀ k ∈ s0.y_store.map Prod.fst, ∃ r, alookup res k = some r ∧ r ≠ [])
    (hucov : ∀ k ∈ s0.u_store.map Prod.fst, (alookup res k).isSome)
    (hio : buildInput s0.inputs_metadata s0.start_time u = .ok io) :
    advance (constSim res) n n' s0 u =
      ({ s0 with
           final_time := some (s0.start_time + s0.step)
           options_init_flag := s0.init_flag
           y := s0.y_store.map (fun kv => (kv.1, ((alookup res kv.1).getD []).getLast?))
           y_store := s0.y_store.map
             (fun kv => (kv.1, kv.2 ++ ((alookup res kv.1).getD []).drop 1))
           u_store := s0.u_store.map
             (fun kv => (kv.1, kv.2 ++ ((alookup res kv.1).getD []).drop 1))
           start_time := s0.start_time + s0.step
           init_flag := false
           ticTime := n'
           hasTic := true
           elapsed_control_time :=
             s0.elapsed_control_time ++ (if s0.hasTic then [n - s0.ticTime] else [])
           tacTime := if s0.hasTic then some n else s0.tacTime },
       .ok (s0.y_store.map
         (fun kv => (kv.1, ((alookup res kv.1).getD []).getLast?)))) := by
  simp only [advance, latencyUpdate_inputs_metadata, latencyUpdate_start_time,
    latencyUpdate_step, latencyUpdate_y, latencyUpdate_y_store, latencyUpdate_u,
    latencyUpdate_u_store, latencyUpdate_init_flag, hio, constSim]
  rw [hk, yLoop_ok res s0.y_store s0.y hk hnd hycov]
  rw [huk, uLoop_ok res s0.u_store hund hucov]
  simp

/-- Whether a call returned normally. -/
def exceptOk {α : Type} : Except Err α → Bool
  | .ok _ => true
  | .error _ => false

/-- Structural facts about every `advance` call, successful or not: the
latency capture always happens first; the configuration fields are never
touched; the clock flag and the tic timestamp are updated exactly on
success. -/
lemma advance_post (sim : SimFn) (n n' : Int) (s : TCState) (u : Assoc ReqVal) :
    ((advance sim n n' s u).1.elapsed_control_time =
      s.elapsed_control_time ++ (if s.hasTic then [n - s.ticTime] else [])) ∧
    ((advance sim n n' s u).1.step = s.step) ∧
    ((advance sim n n' s u).1.horizon = s.horizon) ∧
    ((advance sim n n' s u).1.interval = s.interval) ∧
    ((advance sim n n' s u).1.inputs_metadata = s.inputs_metadata) ∧
    (exceptOk (advance sim n n' s u).2 = true →
      (advance sim n n' s u).1.init_flag = false ∧
      (advance sim n n' s u).1.hasTic = true ∧
      (advance sim n n' s u).1.ticTime = n' ∧
      (advance sim n n' s u).1.start_time = s.start_time + s.step) ∧
    (exceptOk (advance sim n n' s u).2 = false →
      (advance sim n n' s u).1.init_flag = s.init_flag ∧
      (advance sim n n' s u).1.hasTic = s.hasTic ∧
      (advance sim n n' s u).1.ticTime = s.ticTime ∧
      (advance sim n n' s u).1.start_time = s.start_time) := by
  rcases hb : buildInput s.inputs_metadata s.start_time u with e | io
  · rw [advance_buildFail sim n n' s u e hb]
    simp [exceptOk]
  · rcases hsim : sim s.start_time (s.start_time + s.step) s.init_flag io
      with e' | res
    · cases e'
      rw [advance_engineFail sim n n' s u io hb hsim]
      simp [exceptOk]
    · have hav : advance sim n n' s u =
          (match yLoop res (s.y.map Prod.fst) s.y s.y_store with
           | (y1, yst1, some e) =>
             ({ s with
                  final_time := some (s.start_time + s.step)
                  options_init_flag := s.init_flag
                  elapsed_control_time := s.elapsed_control_time ++
                    (if s.hasTic then [n - s.ticTime] else [])
                  tacTime := if s.hasTic then some n else s.tacTime
                  y := y1, y_store := yst1 },
              .error e)
           | (y1, yst1, none) =>
             match uLoop res (s.u.map Prod.fst) s.u_store with
             | (ust1, some e) =>
               ({ s with
                    final_time := some (s.start_time + s.step)
                    options_init_flag := s.init_flag
                    elapsed_control_time := s.elapsed_control_time ++
                      (if s.hasTic then [n - s.ticTime] else [])
                    tacTime := if s.hasTic then some n else s.tacTime
                    y := y1, y_store := yst1, u_store := ust1 },
                .error e)
             | (ust1, none) =>
               ({ s with
                    final_time := some (s.start_time + s.step)
                    options_init_flag := s.init_flag
                    elapsed_control_time := s.elapsed_control_time ++
                      (if s.hasTic then [n - s.ticTime] else [])
                    tacTime := if s.hasTic then some n else s.tacTime
                    y := y1, y_store := yst1, u_store := ust1
                    start_time := s.start_time + s.step
                    init_flag := false, ticTime := n', hasTic := true },
                .ok y1)) := by
        simp [advance, hb, hsim]
      rw [hav]
      rcases yLoop res (s.y.map Prod.fst) s.y s.y_store with ⟨y1, yst1, _ | e⟩
      · rcases uLoop res (s.u.map Prod.fst) s.u_store with ⟨ust1, _ | e⟩
        · simp [exceptOk]
        · simp [exceptOk]
      · simp [exceptOk]

/-! ### Trajectory-construction lemmas -/

/-- Entries whose value is falsy (Python `if u[key]:` fails, e.g. `0`,
`''`, `None`) are skipped by the construction loop, so they may be
removed from the request without changing its outcome. -/
lemma buildList_filter (meta : Assoc VarMeta) :
    ∀ u : Assoc ReqVal,
    buildList meta u = buildList meta (u.filter (fun kv => kv.2.truthy))
  | [] => rfl
  | (k, v) :: rest => by
    by_cases hv : v.truthy
    · have hf : ((k, v) :: rest).filter (fun kv => kv.2.truthy) =
          (k, v) :: rest.filter (fun kv => kv.2.truthy) := by
        simp [List.filter, hv]
      rw [hf]
      simp only [buildList, hv]
      rw [← buildList_filter meta rest]
    · have hf : ((k, v) :: rest).filter (fun kv => kv.2.truthy) =
          rest.filter (fun kv => kv.2.truthy) := by
        simp [List.filter, hv]
      rw [hf]
      simp only [buildList, hv, Bool.and_false, Bool.false_eq_true, if_false]
      exact buildList_filter meta rest

/-- A request all of whose present values are falsy produces no input
object at all (`input_object = None`). -/
lemma buildInput_falsy_none (meta : Assoc VarMeta) (t0 : Int)
    (u : Assoc ReqVal) (h : ∀ kv ∈ u, kv.2.truthy = false) :
    buildInput meta t0 u = .ok none := by
  cases u with
  | nil => rfl
  | cons kv rest =>
    have hany : (kv :: rest).any (fun kv => kv.2.truthy) = false := by
      simp only [List.any_eq_false]
      intro x hx
      simp [h x hx]
    simp [buildInput, hany]

/-- The input object built for a request equals the one built for the
request with all falsy-valued entries removed. -/
lemma buildInput_filter (meta : Assoc VarMeta) (t0 : Int) (u : Assoc ReqVal) :
    buildInput meta t0 u =
      buildInput meta t0 (u.filter (fun kv => kv.2.truthy)) := by
  cases hu : u with
  | nil => rfl
  | cons kv rest =>
    by_cases hany : (kv :: rest).any (fun kv => kv.2.truthy)
    · obtain ⟨x, hxmem, hxtr⟩ := List.any_eq_true.mp hany
      have hmemf : x ∈ (kv :: rest).filter (fun kv => kv.2.truthy) :=
        List.mem_filter.mpr ⟨hxmem, hxtr⟩
      have hne : (kv :: rest).filter (fun kv => kv.2.truthy) ≠ [] :=
        List.ne_nil_of_mem hmemf
      have hanyf : ((kv :: rest).filter (fun kv => kv.2.truthy)).any
          (fun kv => kv.2.truthy) = true :=
        List.any_eq_true.mpr ⟨x, hmemf, hxtr⟩
      rcases hfe : (kv :: rest).filter (fun kv => kv.2.truthy) with _ | ⟨a, b⟩
      · exact absurd hfe hne
      · rw [hfe] at hanyf ⊢
        simp only [buildInput, List.isEmpty_cons, hany, hanyf, if_true,
          Bool.false_eq_true, if_false]
        rw [← hfe, ← buildList_filter meta (kv :: rest)]
    · have h' : ∀ x ∈ (kv :: rest), x.2.truthy = false := by
        intro x hx
        by_contra hc
        exact hany (List.any_eq_true.mpr ⟨x, hx, by
          cases hxt : x.2.truthy
          · exact absurd hxt hc
          · rfl⟩)
      rw [buildInput_falsy_none meta t0 _ h']
      have : (kv :: rest).filter (fun kv => kv.2.truthy) = [] :=
        List.filter_eq_nil_iff.mpr (by intro x hx; simp [h' x hx])
      rw [this]
      rfl

/-- `advance` depends on the request only through trajectory
construction, so falsy-valued entries never influence a step. -/
lemma advance_filter (sim : SimFn) (n n' : Int) (s : TCState)
    (u : Assoc ReqVal) :
    advance sim n n' s u =
      advance sim n n' s (u.filter (fun kv => kv.2.truthy)) := by
  simp only [advance]
  rw [← buildInput_filter]

/-- A present, truthy, uncoercible request value makes the construction
loop raise. -/
lemma buildList_err_of_bad (meta : Assoc VarMeta) :
    ∀ (u : Assoc ReqVal) (k : String) (v : ReqVal),
    (k, v) ∈ u → k ≠ "time" → v.truthy = true → v.toFloat = none →
    ∃ e, buildList meta u = .error e
  | [], k, v, hmem, _, _, _ => absurd hmem (List.not_mem_nil _)
  | (k', v') :: rest, k, v, hmem, hkt, htr, hco => by
    rcases List.mem_cons.mp hmem with heq | hmem'
    · injection heq with hk hv
      subst hk; subst hv
      have hcond : ((k != "time") && v.truthy) = true := by
        simp [bne_iff_ne, hkt, htr]
      refine ⟨.coercion, ?_⟩
      simp [buildList, hcond, hco, htr, bne_iff_ne, hkt]
    · by_cases hcond : ((k' != "time") && v'.truthy) = true
      · cases hfl : v'.toFloat with
        | none => exact ⟨.coercion, by simp [buildList, hcond, hfl]⟩
        | some value =>
          cases hact : isActivate k' with
          | true =>
            obtain ⟨e, he⟩ := buildList_err_of_bad meta rest k v hmem' hkt htr hco
            exact ⟨e, by simp [buildList, hcond, hfl, hact, he]⟩
          | false =>
            cases hck : check_value_min_max meta k' value with
            | error e' =>
              exact ⟨e', by simp [buildList, hcond, hfl, hact, hck]⟩
            | ok cv =>
              obtain ⟨e, he⟩ := buildList_err_of_bad meta rest k v hmem' hkt htr hco
              exact ⟨e, by simp [buildList, hcond, hfl, hact, hck, he]⟩
      · obtain ⟨e, he⟩ := buildList_err_of_bad meta rest k v hmem' hkt htr hco
        refine ⟨e, ?_⟩
        simp only [buildList, Bool.not_eq_true] at hcond ⊢
        rw [hcond]
        simpa using he

/-- A request containing a present, truthy, uncoercible value makes
trajectory construction raise. -/
lemma buildInput_err_of_bad (meta : Assoc VarMeta) (t0 : Int)
    (u : Assoc ReqVal) (k : String) (v : ReqVal)
    (hmem : (k, v) ∈ u) (hkt : k ≠ "time") (htr : v.truthy = true)
    (hco : v.toFloat = none) :
    ∃ e, buildInput meta t0 u = .error e := by
  obtain ⟨e, he⟩ := buildList_err_of_bad meta u k v hmem hkt htr hco
  cases u with
  | nil => exact absurd hmem (List.not_mem_nil _)
  | cons kv rest =>
    have hany : (kv :: rest).any (fun kv => kv.2.truthy) = true :=
      List.any_eq_true.mpr ⟨(k, v), hmem, htr⟩
    exact ⟨e, by simp [buildInput, hany, he]⟩

deriving instance DecidableEq for Except

/-! ### A concrete test configuration used by the witnesses -/

/-- A small FMU catalog: one output, one numeric input, one flag input. -/
def fmu0 : Fmu :=
  { input_names := ["oveHea_u", "oveAct_activate"]
    output_names := ["TRoo_y"]
    varUnit := fun _ => "K"
    varDescription := fun _ => "d"
    varMin := fun _ => 15
    varMax := fun _ => 30 }

def cfg0 : Config := { fmu := fmu0, step0 := 300, horizon0 := 86400, interval0 := 3600 }

/-- Engine result for a first step over [0, 300]. -/
def res0 : Assoc (List Int) :=
  [("time", [0, 150, 300]), ("TRoo_y", [20, 21, 22]),
   ("oveHea_u", [16, 17, 18]), ("oveAct_activate", [0, 0, 0])]

/-- Engine result for a second step over [300, 600]. -/
def res1 : Assoc (List Int) :=
  [("time", [300, 450, 600]), ("TRoo_y", [22, 23, 24]),
   ("oveHea_u", [18, 19, 20]), ("oveAct_activate", [0, 0, 0])]

/-- The state after one successful empty-request `advance` from construction. -/
def st1 : TCState := (advance (constSim res0) 1 5 (initState cfg0) []).1

example : (advance (constSim res0) 1 5 (initState cfg0) []).2 =
    .ok [("time", some 300), ("TRoo_y", some 22)] := by decide
example : st1.start_time = 300 ∧ st1.hasTic = true ∧ st1.init_flag = false ∧
    st1.elapsed_control_time = [] ∧
    timeHist st1 = [150, 300] := by decide

/-! ### Claim theorems -/

/-- C8: after `reset()`, `get_results` returns stores whose every
per-variable history is empty, and `get_step`/`get_forecast_parameters`
return the original configuration defaults (`con['step']`,
`con['horizon']`, `con['interval']`), regardless of any `advance`,
`set_step` or `set_forecast_parameters` calls that produced the
pre-reset state `s`. -/
theorem C8_reset_defaults (c : Config) (s : TCState) :
    (∀ kv ∈ (get_results (reset c s)).1, kv.2 = ([] : List Int)) ∧
    (∀ kv ∈ (get_results (reset c s)).2, kv.2 = ([] : List Int)) ∧
    get_step (reset c s) = c.step0 ∧
    get_forecast_parameters (reset c s) = (c.horizon0, c.interval0) := by
  refine ⟨?_, ?_, rfl, rfl⟩ <;>
    · intro kv hkv
      simp only [get_results, reset, initState, List.mem_cons, List.mem_map] at hkv
      rcases hkv with rfl | ⟨a, _, rfl⟩ <;> rfl

/-- C9 counterexample: `set_forecast_parameters` performs no
non-negativity validation; a negative horizon and interval are stored
and reported back by `get_forecast_parameters`, contradicting
"validated as non-negative" / "rejected rather than stored". -/
theorem C9_counterexample :
    get_forecast_parameters
        (set_forecast_parameters (initState cfg0) (-1) (-2)) = (-1, -2) ∧
    (-1 : Int) < 0 ∧ (-2 : Int) < 0 := by
  exact ⟨rfl, by decide, by decide⟩

/-- C9 (amended): `set_forecast_parameters(horizon, interval)` stores
`float(horizon)` and `float(interval)` unconditionally — no validation —
and `get_forecast_parameters` reports exactly the stored pair. -/
theorem C9_forecast_params_stored (s : TCState) (h i : Int) :
    set_forecast_parameters s h i = { s with horizon := h, interval := i } ∧
    get_forecast_parameters (set_forecast_parameters s h i) = (h, i) :=
  ⟨rfl, rfl⟩

/-- C10: an entry of the request whose value is falsy — the number `0`,
the empty string, or `None` — is treated exactly as if the key were
absent: `advance` behaves identically on the request with all falsy
entries removed (so the value is never coerced, clamped, or included in
the input trajectory), and a request with only falsy values yields no
input object at all (the engine is invoked with `input = None`).  In
particular a caller cannot override an input with the value zero. -/
theorem C10_falsy_inputs_ignored (sim : SimFn) (n n' : Int) (s : TCState)
    (u : Assoc ReqVal) :
    advance sim n n' s u =
      advance sim n n' s (u.filter (fun kv => kv.2.truthy)) ∧
    (ReqVal.num 0).truthy = false ∧
    (∀ p : Option Int, (ReqVal.str "" p).truthy = false) ∧
    ReqVal.null.truthy = false ∧
    (∀ u' : Assoc ReqVal, (∀ kv ∈ u', kv.2.truthy = false) →
      buildInput s.inputs_metadata s.start_time u' = .ok none) :=
  ⟨advance_filter sim n n' s u, rfl, fun _ => rfl, rfl,
   fun u' h => buildInput_falsy_none _ _ u' h⟩

/-- C10 witness: a request overriding with `0` and `''` behaves exactly
like the empty request, and produces no input object. -/
theorem C10_falsy_witness :
    advance (constSim res0) 1 5 (initState cfg0)
        [("oveHea_u", ReqVal.num 0), ("oveAct_activate", ReqVal.str "" none)] =
      advance (constSim res0) 1 5 (initState cfg0) [] ∧
    buildInput (initState cfg0).inputs_metadata (initState cfg0).start_time
        [("oveHea_u", ReqVal.num 0)] = .ok none := by
  constructor
  · exact (C10_falsy_inputs_ignored (constSim res0) 1 5 (initState cfg0)
      [("oveHea_u", ReqVal.num 0),
       ("oveAct_activate", ReqVal.str "" none)]).1.trans (by decide)
  · exact (C10_falsy_inputs_ignored (constSim res0) 1 5 (initState cfg0)
      []).2.2.2.2 [("oveHea_u", ReqVal.num 0)] (by decide)

/-- C3: for a variable with declared numeric bounds (`minimum ≤ maximum`,
as an FMU declares them), clamping returns exactly the maximum above it,
exactly the minimum below it, and the value unchanged inside the range;
it is idempotent; and an activation-flag variable bypasses clamping
entirely — its coerced value enters the trajectory unaltered. -/
theorem C3_clamping (meta : Assoc VarMeta) (var : String)
    (un de : Option String) (mini maxi : Int)
    (hm : alookup meta var = some ⟨un, de, some mini, some maxi⟩)
    (hbound : mini ≤ maxi) :
    (∀ v : Int, maxi < v → check_value_min_max meta var v = .ok maxi) ∧
    (∀ v : Int, v < mini → check_value_min_max meta var v = .ok mini) ∧
    (∀ v : Int, mini ≤ v → v ≤ maxi → check_value_min_max meta var v = .ok v) ∧
    (∀ v w : Int, check_value_min_max meta var v = .ok w →
      check_value_min_max meta var w = .ok w) ∧
    (∀ (k : String) (rv : ReqVal) (x : Int) (rest : Assoc ReqVal),
      isActivate k = true → rv.truthy = true → rv.toFloat = some x →
      buildList meta ((k, rv) :: rest) =
        match buildList meta rest with
        | .error e => .error e
        | .ok p => .ok (k :: p.1, x :: p.2)) := by
  have base : ∀ v : Int, check_value_min_max meta var v =
      (if maxi < v then .ok maxi else if v < mini then .ok mini else .ok v) := by
    intro v
    simp [check_value_min_max, hm]
  refine ⟨?_, ?_, ?_, ?_, ?_⟩
  · intro v hv
    rw [base, if_pos hv]
  · intro v hv
    rw [base, if_neg (not_lt.mpr (le_trans hv.le hbound)), if_pos hv]
  · intro v hv1 hv2
    rw [base, if_neg (not_lt.mpr hv2), if_neg (not_lt.mpr hv1)]
  · intro v w h
    rw [base] at h
    by_cases h1 : maxi < v
    · rw [if_pos h1] at h
      injection h with h'
      subst h'
      rw [base, if_neg (lt_irrefl maxi), if_neg (not_lt.mpr hbound)]
    · rw [if_neg h1] at h
      by_cases h2 : v < mini
      · rw [if_pos h2] at h
        injection h with h'
        subst h'
        rw [base, if_neg (not_lt.mpr hbound), if_neg (lt_irrefl mini)]
      · rw [if_neg h2] at h
        injection h with h'
        subst h'
        rw [base, if_neg h1, if_neg h2]
  · intro k rv x rest hact htr hfl
    have hkt : k ≠ "time" := by
      intro hk
      subst hk
      exact absurd hact (by decide)
    have hcond : ((k != "time") && rv.truthy) = true := by
      simp [bne_iff_ne, hkt, htr]
    simp only [buildList, hcond, if_true, hfl, hact, Bool.not_true,
      Bool.false_eq_true, if_false]

/-- C3 witness: the declared bounds of `oveHea_u` in the test
configuration are `[15, 30]`; clamping behaves as stated and the flag
input `oveAct_activate` is passed through unclamped. -/
theorem C3_clamping_witness :
    alookup (initState cfg0).inputs_metadata "oveHea_u" =
      some ⟨some "K", some "d", some 15, some 30⟩ ∧
    (15 : Int) ≤ 30 ∧
    check_value_min_max (initState cfg0).inputs_metadata "oveHea_u" 40 = .ok 30 ∧
    check_value_min_max (initState cfg0).inputs_metadata "oveHea_u" 10 = .ok 15 ∧
    check_value_min_max (initState cfg0).inputs_metadata "oveHea_u" 22 = .ok 22 ∧
    check_value_min_max (initState cfg0).inputs_metadata "oveHea_u" 30 = .ok 30 ∧
    buildList (initState cfg0).inputs_metadata
        [("oveAct_activate", ReqVal.num 1)] = .ok (["oveAct_activate"], [1]) := by
  have h := C3_clamping (initState cfg0).inputs_metadata "oveHea_u"
      (some "K") (some "d") 15 30 (by decide) (by decide)
  exact ⟨by decide, by decide, h.1 40 (by decide), h.2.1 10 (by decide),
    h.2.2.1 22 (by decide) (by decide),
    h.2.2.2.1 40 30 (h.1 40 (by decide)),
    (h.2.2.2.2 "oveAct_activate" (ReqVal.num 1) 1 [] (by decide) (by decide)
      (by decide)).trans (by decide)⟩

/-- C5 (amended): a request mapping a non-`'time'` key to a present,
truthy value that cannot be coerced to a number makes `advance` raise,
leaving `start_time`, the initialization flag, `y`, `y_store`, `u_store`
and all configuration fields unchanged; however — contrary to the
original claim — the elapsed-time log has already gained one entry
whenever a pending timestamp exists (the latency capture at lines 93-95
runs before the value is coerced), and `final_time`/`tac_time` are
updated. -/
theorem C5_coercion_failure (sim : SimFn) (n n' : Int) (s : TCState)
    (u : Assoc ReqVal) (k : String) (v : ReqVal)
    (hmem : (k, v) ∈ u) (hkt : k ≠ "time") (htr : v.truthy = true)
    (hco : v.toFloat = none) :
    (∃ e, (advance sim n n' s u).2 = .error e) ∧
    (advance sim n n' s u).1 =
      { s with
          final_time := some (s.start_time + s.step)
          elapsed_control_time :=
            s.elapsed_control_time ++ (if s.hasTic then [n - s.ticTime] else [])
          tacTime := if s.hasTic then some n else s.tacTime } := by
  obtain ⟨e, he⟩ :=
    buildInput_err_of_bad s.inputs_metadata s.start_time u k v hmem hkt htr hco
  rw [advance_buildFail sim n n' s u e he]
  exact ⟨⟨e, rfl⟩, rfl⟩

/-- C5 counterexample: on a state with a pending timestamp (one
successful step has happened), an uncoercible request value raises but
the elapsed-time log grows from `[]` to `[2]` — the harness state is not
left unchanged, refuting the claim as stated. -/
theorem C5_counterexample :
    (advance (constSim res1) 7 9 st1 [("oveHea_u", ReqVal.str "abc" none)]).2 =
      .error Err.coercion ∧
    (advance (constSim res1) 7 9 st1
        [("oveHea_u", ReqVal.str "abc" none)]).1.elapsed_control_time = [2] ∧
    st1.elapsed_control_time = [] := by
  decide

/-- C5 witness for the amended theorem, at a concrete uncoercible
request against the post-first-step state. -/
theorem C5_coercion_witness :
    (("oveHea_u", ReqVal.str "bad" none) ∈
      ([("oveHea_u", ReqVal.str "bad" none)] : Assoc ReqVal)) ∧
    (∃ e, (advance (constSim res1) 7 9 st1
        [("oveHea_u", ReqVal.str "bad" none)]).2 = .error e) ∧
    (advance (constSim res1) 7 9 st1
        [("oveHea_u", ReqVal.str "bad" none)]).1 =
      { st1 with
          final_time := some (st1.start_time + st1.step)
          elapsed_control_time :=
            st1.elapsed_control_time ++
              (if st1.hasTic then [7 - st1.ticTime] else [])
          tacTime := if st1.hasTic then some 7 else st1.tacTime } := by
  have h := C5_coercion_failure (constSim res1) 7 9 st1
      [("oveHea_u", ReqVal.str "bad" none)] "oveHea_u" (ReqVal.str "bad" none)
      (by decide) (by decide) (by decide) (by decide)
  exact ⟨by decide, h.1, h.2⟩

/-- C4 (amended): a failure raised by the engine during a step
propagates uncaught (`advance` raises), and the clock state is as of
just before the call: `start_time`, the initialization flag, `y`,
`y_store` and `u_store` are unchanged — no partial history is committed.
However — contrary to the original claim's "all other harness state" —
the elapsed-time log has already gained one entry whenever a pending
timestamp exists, and `final_time`/`options['initialize']`/`tac_time`
were updated before the engine call. -/
theorem C4_engine_failure (sim : SimFn) (n n' : Int) (s : TCState)
    (u : Assoc ReqVal) (io : Option InputObject)
    (hio : buildInput s.inputs_metadata s.start_time u = .ok io)
    (hsim : sim s.start_time (s.start_time + s.step) s.init_flag io =
      .error ()) :
    (advance sim n n' s u).2 = .error .engine ∧
    (advance sim n n' s u).1.start_time = s.start_time ∧
    (advance sim n n' s u).1.init_flag = s.init_flag ∧
    (advance sim n n' s u).1.y = s.y ∧
    (advance sim n n' s u).1.y_store = s.y_store ∧
    (advance sim n n' s u).1.u_store = s.u_store ∧
    (advance sim n n' s u).1.u = s.u ∧
    (advance sim n n' s u).1.step = s.step ∧
    (advance sim n n' s u).1.horizon = s.horizon ∧
    (advance sim n n' s u).1.interval = s.interval ∧
    (advance sim n n' s u).1.inputs_metadata = s.inputs_metadata ∧
    (advance sim n n' s u).1.outputs_metadata = s.outputs_metadata ∧
    (advance sim n n' s u).1.hasTic = s.hasTic ∧
    (advance sim n n' s u).1.ticTime = s.ticTime ∧
    (advance sim n n' s u).1.elapsed_control_time =
      s.elapsed_control_time ++ (if s.hasTic then [n - s.ticTime] else []) ∧
    (advance sim n n' s u).1.final_time = some (s.start_time + s.step) ∧
    (advance sim n n' s u).1.options_init_flag = s.init_flag := by
  rw [advance_engineFail sim n n' s u io hio hsim]
  exact ⟨rfl, rfl, rfl, rfl, rfl, rfl, rfl, rfl, rfl, rfl, rfl, rfl, rfl, rfl,
    rfl, rfl, rfl⟩

/-- C4 counterexample: when the engine raises on the second step, the
post-failure state differs from the pre-call state — the elapsed-time
log grew from `[]` to `[2]` — refuting "all other harness state ...
unchanged" as stated. -/
theorem C4_counterexample :
    (advance failSim 7 9 st1 []).2 = .error Err.engine ∧
    (advance failSim 7 9 st1 []).1 ≠ st1 ∧
    (advance failSim 7 9 st1 []).1.elapsed_control_time = [2] ∧
    st1.elapsed_control_time = [] := by
  decide

/-- C4 witness for the amended theorem: concrete engine failure on the
step after a successful one. -/
theorem C4_engine_failure_witness :
    buildInput st1.inputs_metadata st1.start_time [] = .ok none ∧
    failSim st1.start_time (st1.start_time + st1.step) st1.init_flag none =
      .error () ∧
    ((advance failSim 7 9 st1 []).2 = .error .engine ∧
     (advance failSim 7 9 st1 []).1.start_time = st1.start_time ∧
     (advance failSim 7 9 st1 []).1.init_flag = st1.init_flag ∧
     (advance failSim 7 9 st1 []).1.y = st1.y ∧
     (advance failSim 7 9 st1 []).1.y_store = st1.y_store ∧
     (advance failSim 7 9 st1 []).1.u_store = st1.u_store ∧
     (advance failSim 7 9 st1 []).1.u = st1.u ∧
     (advance failSim 7 9 st1 []).1.step = st1.step ∧
     (advance failSim 7 9 st1 []).1.horizon = st1.horizon ∧
     (advance failSim 7 9 st1 []).1.interval = st1.interval ∧
     (advance failSim 7 9 st1 []).1.inputs_metadata = st1.inputs_metadata ∧
     (advance failSim 7 9 st1 []).1.outputs_metadata = st1.outputs_metadata ∧
     (advance failSim 7 9 st1 []).1.hasTic = st1.hasTic ∧
     (advance failSim 7 9 st1 []).1.ticTime = st1.ticTime ∧
     (advance failSim 7 9 st1 []).1.elapsed_control_time =
       st1.elapsed_control_time ++
         (if st1.hasTic then [7 - st1.ticTime] else []) ∧
     (advance failSim 7 9 st1 []).1.final_time =
       some (st1.start_time + st1.step) ∧
     (advance failSim 7 9 st1 []).1.options_init_flag = st1.init_flag) :=
  ⟨by decide, rfl, C4_engine_failure failSim 7 9 st1 [] none (by decide) rfl⟩

/-! ### Ordered-list helpers for the boundary-sample property -/

lemma alookup_isSome_of_mem {α : Type} :
    ∀ (d : Assoc α) (k : String), k ∈ d.map Prod.fst →
    ∃ v, alookup d k = some v
  | [], k, h => absurd h (List.not_mem_nil _)
  | (k', v') :: rest, k, h => by
    by_cases hk : k = k'
    · exact ⟨v', by simp [alookup, hk]⟩
    · have h' : k ∈ rest.map Prod.fst := by
        rcases List.mem_cons.mp h with h0 | h0
        · exact absurd h0 hk
        · exact h0
      obtain ⟨v, hv⟩ := alookup_isSome_of_mem rest k h'
      exact ⟨v, by simp [alookup, hk, hv]⟩

lemma pw_lt_count_getLast :
    ∀ (l : List Int), l.Pairwise (· < ·) → ∀ b : Int,
    l.getLast? = some b → l.count b = 1
  | [], _, b, hb => by simp at hb
  | [a], _, b, hb => by
    simp only [List.getLast?_singleton, Option.some.injEq] at hb
    subst hb
    simp
  | a :: c :: t, h, b, hb => by
    rw [List.getLast?_cons_cons] at hb
    have hpw := List.pairwise_cons.mp h
    have hbmem : b ∈ c :: t := by
      obtain ⟨hne, heq⟩ := List.mem_getLast?_eq_getLast (l := c :: t) (x := b)
        (by rw [hb]; rfl)
      rw [heq]
      exact List.getLast_mem hne
    have hab : a ≠ b := ne_of_lt (hpw.1 b hbmem)
    rw [List.count_cons, if_neg (fun hh => hab (by simpa using hh.symm))]
    simpa using pw_lt_count_getLast (c :: t) hpw.2 b hb

lemma pw_lt_head_getLast :
    ∀ (l : List Int), l.Pairwise (· < ·) → ∀ a b : Int,
    l.head? = some a → l.getLast? = some b → 2 ≤ l.length → a < b
  | [], _, a, b, ha, _, _ => by simp at ha
  | [x], _, a, b, ha, hb, hlen => by simp at hlen
  | x :: c :: t, h, a, b, ha, hb, _ => by
    simp only [List.head?_cons, Option.some.injEq] at ha
    subst ha
    rw [List.getLast?_cons_cons] at hb
    have hbmem : b ∈ c :: t := by
      obtain ⟨hne, heq⟩ := List.mem_getLast?_eq_getLast (l := c :: t) (x := b)
        (by rw [hb]; rfl)
      rw [heq]
      exact List.getLast_mem hne
    exact (List.pairwise_cons.mp h).1 b hbmem

lemma pw_lt_count_tail_zero (t1 : Int) (tl : List Int)
    (h : (t1 :: tl).Pairwise (· < ·)) : tl.count t1 = 0 := by
  rw [List.count_eq_zero]
  intro hmem
  exact absurd ((List.pairwise_cons.mp h).1 t1 hmem) (lt_irrefl t1)

/-- C1: for an `advance` call in which the engine returns, for each
stored variable, a sampled sequence over `[start_time, final_time]`
(covering every key, non-empty, common strictly increasing time grid
with both endpoints), the call appends to each per-variable store —
both `y_store` and `u_store` — exactly the returned sequence with its
first element dropped, and returns as the `OutputSample` the last
element of each returned sequence; consequently after two consecutive
steps over `[t0, t1]` and `[t1, t2]` the boundary time `t1` appears
exactly once in the merged `time` history. -/
theorem C1_advance_merge
    (res res2 : Assoc (List Int)) (n n' m m' : Int) (s : TCState)
    (u u2 : Assoc ReqVal) (io io2 : Option InputObject) (ts ts2 : List Int)
    (hk : s.y.map Prod.fst = s.y_store.map Prod.fst)
    (hnd : (s.y_store.map Prod.fst).Nodup)
    (huk : s.u.map Prod.fst = s.u_store.map Prod.fst)
    (hund : (s.u_store.map Prod.fst).Nodup)
    (htimem : "time" ∈ s.y_store.map Prod.fst)
    (hycov : ∀ k ∈ s.y_store.map Prod.fst,
      (alookup res k).isSome ∧ ((alookup res k).getD []) ≠ [])
    (hucov : ∀ k ∈ s.u_store.map Prod.fst, (alookup res k).isSome)
    (hio : buildInput s.inputs_metadata s.start_time u = .ok io)
    (hts : alookup res "time" = some ts)
    (hpw : ts.Pairwise (· < ·))
    (hlen : 2 ≤ ts.length)
    (hhead : ts.head? = some s.start_time)
    (hlast : ts.getLast? = some (s.start_time + s.step))
    (hpre : ∀ x ∈ timeHist s, x ≤ s.start_time)
    (hycov2 : ∀ k ∈ s.y_store.map Prod.fst,
      (alookup res2 k).isSome ∧ ((alookup res2 k).getD []) ≠ [])
    (hucov2 : ∀ k ∈ s.u_store.map Prod.fst, (alookup res2 k).isSome)
    (hio2 : buildInput s.inputs_metadata (s.start_time + s.step) u2 = .ok io2)
    (hts2 : alookup res2 "time" = some ts2)
    (hpw2 : ts2.Pairwise (· < ·))
    (hhead2 : ts2.head? = some (s.start_time + s.step)) :
    ((advance (constSim res) n n' s u).1.y_store =
      s.y_store.map
        (fun kv => (kv.1, kv.2 ++ ((alookup res kv.1).getD []).drop 1))) ∧
    ((advance (constSim res) n n' s u).1.u_store =
      s.u_store.map
        (fun kv => (kv.1, kv.2 ++ ((alookup res kv.1).getD []).drop 1))) ∧
    ((advance (constSim res) n n' s u).2 =
      .ok (s.y_store.map
        (fun kv => (kv.1, ((alookup res kv.1).getD []).getLast?)))) ∧
    ((timeHist (advance (constSim res2) m m'
        (advance (constSim res) n n' s u).1 u2).1).count
      (s.start_time + s.step) = 1) := by
  have toEx : ∀ (r : Assoc (List Int)),
      (∀ k ∈ s.y_store.map Prod.fst,
        (alookup r k).isSome ∧ ((alookup r k).getD []) ≠ []) →
      ∀ k ∈ s.y_store.map Prod.fst, ∃ l, alookup r k = some l ∧ l ≠ [] := by
    intro r hc k hkm
    obtain ⟨h1, h2⟩ := hc k hkm
    obtain ⟨l, hl⟩ := Option.isSome_iff_exists.mp h1
    refine ⟨l, hl, ?_⟩
    rw [hl] at h2
    simpa using h2
  have hadv1 := advance_ok_eq res n n' s u io hk hnd huk hund
    (toEx res hycov) hucov hio
  have hy1 : (advance (constSim res) n n' s u).1.y_store =
      s.y_store.map
        (fun kv => (kv.1, kv.2 ++ ((alookup res kv.1).getD []).drop 1)) := by
    rw [hadv1]
  have hu1 : (advance (constSim res) n n' s u).1.u_store =
      s.u_store.map
        (fun kv => (kv.1, kv.2 ++ ((alookup res kv.1).getD []).drop 1)) := by
    rw [hadv1]
  have hout1 : (advance (constSim res) n n' s u).2 =
      .ok (s.y_store.map
        (fun kv => (kv.1, ((alookup res kv.1).getD []).getLast?))) := by
    rw [hadv1]
  refine ⟨hy1, hu1, hout1, ?_⟩
  -- well-formedness of the post state, for the second step
  have hky1 : (advance (constSim res) n n' s u).1.y.map Prod.fst =
      s.y_store.map Prod.fst := by
    rw [hadv1]
    exact map_fst_modify (fun k _ => ((alookup res k).getD []).getLast?) s.y_store
  have hkst1 : (advance (constSim res) n n' s u).1.y_store.map Prod.fst =
      s.y_store.map Prod.fst := by
    rw [hy1]
    exact map_fst_modify (fun k v => v ++ ((alookup res k).getD []).drop 1)
      s.y_store
  have hkust1 : (advance (constSim res) n n' s u).1.u_store.map Prod.fst =
      s.u_store.map Prod.fst := by
    rw [hu1]
    exact map_fst_modify (fun k v => v ++ ((alookup res k).getD []).drop 1)
      s.u_store
  have hku1 : (advance (constSim res) n n' s u).1.u.map Prod.fst =
      s.u.map Prod.fst := by
    rw [hadv1]
  have hmeta1 : (advance (constSim res) n n' s u).1.inputs_metadata =
      s.inputs_metadata := by
    rw [hadv1]
  have hstart1 : (advance (constSim res) n n' s u).1.start_time =
      s.start_time + s.step := by
    rw [hadv1]
  have hadv2 := advance_ok_eq res2 m m' (advance (constSim res) n n' s u).1 u2
    io2
    (by rw [hky1, hkst1])
    (by rw [hkst1]; exact hnd)
    (by rw [hku1, hkust1]; exact huk)
    (by rw [hkust1]; exact hund)
    (by rw [hkst1]; exact toEx res2 hycov2)
    (by rw [hkust1]; exact hucov2)
    (by rw [hmeta1, hstart1]; exact hio2)
  have hy2 : (advance (constSim res2) m m'
      (advance (constSim res) n n' s u).1 u2).1.y_store =
      (advance (constSim res) n n' s u).1.y_store.map
        (fun kv => (kv.1, kv.2 ++ ((alookup res2 kv.1).getD []).drop 1)) := by
    rw [hadv2]
  -- compute the merged time history
  obtain ⟨H, hH⟩ := alookup_isSome_of_mem s.y_store "time" htimem
  have hth1 : alookup (advance (constSim res) n n' s u).1.y_store "time" =
      some (H ++ ts.drop 1) := by
    rw [hy1, alookup_map_modify
      (fun k v => v ++ ((alookup res k).getD []).drop 1) s.y_store "time",
      hH, hts]
    rfl
  have hth2 : alookup (advance (constSim res2) m m'
      (advance (constSim res) n n' s u).1 u2).1.y_store "time" =
      some (H ++ ts.drop 1 ++ ts2.drop 1) := by
    rw [hy2, alookup_map_modify
      (fun k v => v ++ ((alookup res2 k).getD []).drop 1) _ "time",
      hth1, hts2]
    rfl
  have htimeHist : timeHist (advance (constSim res2) m m'
      (advance (constSim res) n n' s u).1 u2).1 =
      H ++ ts.drop 1 ++ ts2.drop 1 := by
    unfold timeHist
    rw [hth2]
    rfl
  rw [htimeHist]
  -- counting the boundary sample t1 = start_time + step
  have hHhist : timeHist s = H := by
    unfold timeHist
    rw [hH]
    rfl
  have ht01 : s.start_time < s.start_time + s.step :=
    pw_lt_head_getLast ts hpw s.start_time (s.start_time + s.step)
      hhead hlast hlen
  have hcH : H.count (s.start_time + s.step) = 0 := by
    rw [List.count_eq_zero]
    intro hmem
    have := hpre _ (hHhist ▸ hmem)
    exact absurd (lt_of_lt_of_le ht01 this) (lt_irrefl _)
  -- ts = start_time :: tl with tl nonempty
  rcases hts_shape : ts with _ | ⟨a, tl⟩
  · rw [hts_shape] at hhead; simp at hhead
  · have ha : a = s.start_time := by
      rw [hts_shape] at hhead
      simpa using hhead
    rcases htl : tl with _ | ⟨c, tl'⟩
    · rw [hts_shape, htl] at hlen; simp at hlen
    · have hpwtl : (c :: tl').Pairwise (· < ·) := by
        have := hpw
        rw [hts_shape, htl] at this
        exact (List.pairwise_cons.mp this).2
      have hlasttl : (c :: tl').getLast? = some (s.start_time + s.step) := by
        have := hlast
        rw [hts_shape, htl, List.getLast?_cons_cons] at this
        exact this
      have hcts : (ts.drop 1).count (s.start_time + s.step) = 1 := by
        rw [hts_shape, htl]
        simpa using pw_lt_count_getLast (c :: tl') hpwtl _ hlasttl
      rcases hts2_shape : ts2 with _ | ⟨a2, tl2⟩
      · rw [hts2_shape] at hhead2; simp at hhead2
      · have ha2 : a2 = s.start_time + s.step := by
          rw [hts2_shape] at hhead2
          simpa using hhead2
        have hcts2 : (ts2.drop 1).count (s.start_time + s.step) = 0 := by
          rw [hts2_shape]
          have hpw2' : ((s.start_time + s.step) :: tl2).Pairwise (· < ·) := by
            have := hpw2
            rw [hts2_shape, ha2] at this
            exact this
          simpa using pw_lt_count_tail_zero _ tl2 hpw2'
        rw [hts_shape, htl] at hcts
        rw [hts2_shape] at hcts2
        rw [List.count_append, List.count_append, hcH, hcts, hcts2]

/-- C1 witness: two concrete empty-request steps over [0,300] and
[300,600]; the stores receive the engine sequences with their first
samples dropped, the returned sample is the last element of each
sequence, and the boundary time 300 appears exactly once in the merged
history. -/
theorem C1_advance_merge_witness :
    ((advance (constSim res0) 1 5 (initState cfg0) []).1.y_store =
      (initState cfg0).y_store.map
        (fun kv => (kv.1, kv.2 ++ ((alookup res0 kv.1).getD []).drop 1))) ∧
    ((advance (constSim res0) 1 5 (initState cfg0) []).1.u_store =
      (initState cfg0).u_store.map
        (fun kv => (kv.1, kv.2 ++ ((alookup res0 kv.1).getD []).drop 1))) ∧
    ((advance (constSim res0) 1 5 (initState cfg0) []).2 =
      .ok ((initState cfg0).y_store.map
        (fun kv => (kv.1, ((alookup res0 kv.1).getD []).getLast?)))) ∧
    ((timeHist (advance (constSim res1) 7 9
        (advance (constSim res0) 1 5 (initState cfg0) []).1 []).1).count
      ((initState cfg0).start_time + (initState cfg0).step) = 1) :=
  C1_advance_merge res0 res1 1 5 7 9 (initState cfg0) [] [] none none
    [0, 150, 300] [300, 450, 600]
    (by decide) (by decide) (by decide) (by decide) (by decide) (by decide)
    (by decide) (by decide) (by decide) (by decide) (by decide) (by decide)
    (by decide) (by decide) (by decide) (by decide) (by decide) (by decide)
    (by decide) (by decide)

lemma pw_lt_le_getLast :
    ∀ (l : List Int), l.Pairwise (· < ·) → ∀ b : Int,
    l.getLast? = some b → ∀ x ∈ l, x ≤ b
  | [], _, b, hb, x, hx => absurd hx (List.not_mem_nil x)
  | [a], _, b, hb, x, hx => by
    simp only [List.getLast?_singleton, Option.some.injEq] at hb
    subst hb
    simp only [List.mem_singleton] at hx
    exact le_of_eq hx
  | a :: c :: t, h, b, hb, x, hx => by
    rw [List.getLast?_cons_cons] at hb
    have hpw := List.pairwise_cons.mp h
    have hbmem : b ∈ c :: t := by
      obtain ⟨hne, heq⟩ := List.mem_getLast?_eq_getLast (l := c :: t) (x := b)
        (by rw [hb]; rfl)
      rw [heq]
      exact List.getLast_mem hne
    rcases List.mem_cons.mp hx with rfl | hx'
    · exact le_of_lt (hpw.1 b hbmem)
    · exact pw_lt_le_getLast (c :: t) hpw.2 b hb x hx'

/-! ### Reachable states and the engine contract -/

/-- Well-formedness of the static configuration: the FMU catalog has
distinct variable names and none of them is the reserved name `time`
(FMU model variables form a dictionary, so this always holds). -/
def WFConfig (c : Config) : Prop :=
  ("time" :: c.fmu.output_names).Nodup ∧ ("time" :: c.fmu.input_names).Nodup

/-- The engine contract for one step from state `s`: the result covers
every stored variable, all sequences are sampled on a common strictly
increasing time grid that spans the closed interval
`[start_time, start_time + step]` with at least the two endpoints. -/
def EngineSpec (s : TCState) (res : Assoc (List Int)) : Prop :=
  (alookup res "time").isSome ∧
  ((alookup res "time").getD []).Pairwise (· < ·) ∧
  2 ≤ ((alookup res "time").getD []).length ∧
  ((alookup res "time").getD []).head? = some s.start_time ∧
  ((alookup res "time").getD []).getLast? = some (s.start_time + s.step) ∧
  (∀ k ∈ s.y_store.map Prod.fst,
    (alookup res k).isSome ∧
    ((alookup res k).getD []).length = ((alookup res "time").getD []).length) ∧
  (∀ k ∈ s.u_store.map Prod.fst,
    (alookup res k).isSome ∧
    ((alookup res k).getD []).length = ((alookup res "time").getD []).length)

/-- States reachable by construction, resets, and successful `advance`
calls whose engine responses satisfy the contract. -/
inductive Reaches (c : Config) : TCState → Prop where
  | init : Reaches c (initState c)
  | rst {s : TCState} : Reaches c s → Reaches c (reset c s)
  | step {s s' : TCState} {res : Assoc (List Int)} {u : Assoc ReqVal}
      {n n' : Int} {out : Assoc (Option Int)} :
      Reaches c s → EngineSpec s res →
      advance (constSim res) n n' s u = (s', .ok out) →
      Reaches c s'

/-- The store invariant maintained by the harness. -/
structure TCInv (s : TCState) : Prop where
  ykeys : s.y.map Prod.fst = s.y_store.map Prod.fst
  ukeys : s.u.map Prod.fst = s.u_store.map Prod.fst
  ynodup : (s.y_store.map Prod.fst).Nodup
  unodup : (s.u_store.map Prod.fst).Nodup
  ytime : "time" ∈ s.y_store.map Prod.fst
  utime : "time" ∈ s.u_store.map Prod.fst
  mono : (timeHist s).Pairwise (· < ·)
  bounded : ∀ x ∈ timeHist s, x ≤ s.start_time
  ylen : ∀ kv ∈ s.y_store, kv.2.length = (timeHist s).length
  ulen : ∀ kv ∈ s.u_store, kv.2.length = (timeHist s).length
  uytime : alookup s.u_store "time" = alookup s.y_store "time"

lemma map_fst_const {α : Type} (dflt : α) :
    ∀ l : List String, (l.map (fun k => (k, dflt))).map Prod.fst = l
  | [] => rfl
  | a :: t => by simp [map_fst_const dflt t]

lemma map_fst_comp_const {α : Type} (dflt : α) :
    ∀ l : List String, l.map (Prod.fst ∘ fun k => (k, dflt)) = l
  | [] => rfl
  | a :: t => by
    simp only [List.map_cons, Function.comp_apply]
    exact congrArg _ (map_fst_comp_const dflt t)

lemma initState_ykeys (c : Config) :
    (initState c).y_store.map Prod.fst = "time" :: c.fmu.output_names := by
  simp [initState, map_fst_const, map_fst_comp_const]

lemma initState_ukeys (c : Config) :
    (initState c).u_store.map Prod.fst = "time" :: c.fmu.input_names := by
  simp [initState, map_fst_const, map_fst_comp_const]

lemma TCInv_init (c : Config) (hwf : WFConfig c) : TCInv (initState c) := by
  have hempty : ∀ kv ∈ (initState c).y_store, kv.2 = ([] : List Int) := by
    intro kv hkv
    simp only [initState, List.mem_cons, List.mem_map] at hkv
    rcases hkv with rfl | ⟨a, _, rfl⟩ <;> rfl
  have huempty : ∀ kv ∈ (initState c).u_store, kv.2 = ([] : List Int) := by
    intro kv hkv
    simp only [initState, List.mem_cons, List.mem_map] at hkv
    rcases hkv with rfl | ⟨a, _, rfl⟩ <;> rfl
  have hth : timeHist (initState c) = [] := rfl
  refine ⟨by simp [initState], by simp [initState], ?_, ?_, ?_, ?_, ?_, ?_, ?_, ?_, rfl⟩
  · rw [initState_ykeys]; exact hwf.1
  · rw [initState_ukeys]; exact hwf.2
  · rw [initState_ykeys]; exact List.mem_cons_self _ _
  · rw [initState_ukeys]; exact List.mem_cons_self _ _
  · rw [hth]; exact List.Pairwise.nil
  · rw [hth]; intro x hx; exact absurd hx (List.not_mem_nil x)
  · intro kv hkv; rw [hempty kv hkv, hth]
  · intro kv hkv; rw [huempty kv hkv, hth]

lemma TCInv_reset (c : Config) (s : TCState) (hwf : WFConfig c) :
    TCInv (reset c s) := by
  have h := TCInv_init c hwf
  exact ⟨h.ykeys, h.ukeys, h.ynodup, h.unodup, h.ytime, h.utime, h.mono,
    h.bounded, h.ylen, h.ulen, h.uytime⟩

lemma pw_lt_head_lt_tail (l : List Int) (h : l.Pairwise (· < ·)) (a : Int)
    (ha : l.head? = some a) : ∀ x ∈ l.drop 1, a < x := by
  cases l with
  | nil => simp at ha
  | cons b t =>
    simp only [List.head?_cons, Option.some.injEq] at ha
    subst ha
    simpa using (List.pairwise_cons.mp h).1

lemma TCInv_step (s s' : TCState) (res : Assoc (List Int)) (u : Assoc ReqVal)
    (n n' : Int) (out : Assoc (Option Int))
    (hinv : TCInv s) (hes : EngineSpec s res)
    (hadv : advance (constSim res) n n' s u = (s', .ok out)) : TCInv s' := by
  obtain ⟨hsome, hpw0, hlen0, hhead0, hlast0, hyc, huc⟩ := hes
  obtain ⟨ts, hts⟩ := Option.isSome_iff_exists.mp hsome
  rw [hts] at hpw0 hlen0 hhead0 hlast0 hyc huc
  simp only [Option.getD_some] at hpw0 hlen0 hhead0 hlast0 hyc huc
  rcases hb : buildInput s.inputs_metadata s.start_time u with e | io
  · rw [advance_buildFail (constSim res) n n' s u e hb] at hadv
    exact absurd (congrArg Prod.snd hadv) (by simp)
  · have hycov : ∀ k ∈ s.y_store.map Prod.fst,
        ∃ r, alookup res k = some r ∧ r ≠ [] := by
      intro k hk
      obtain ⟨h1, h2⟩ := hyc k hk
      obtain ⟨r, hr⟩ := Option.isSome_iff_exists.mp h1
      refine ⟨r, hr, ?_⟩
      rw [hr, Option.getD_some] at h2
      intro hnil
      rw [hnil] at h2
      simp only [List.length_nil] at h2
      omega
    have hucov : ∀ k ∈ s.u_store.map Prod.fst, (alookup res k).isSome :=
      fun k hk => (huc k hk).1
    have heq := advance_ok_eq res n n' s u io hinv.ykeys hinv.ynodup
      hinv.ukeys hinv.unodup hycov hucov hb
    rw [heq] at hadv
    injection hadv with h1 h2
    subst h1
    obtain ⟨H, hH⟩ := alookup_isSome_of_mem s.y_store "time" hinv.ytime
    have hHt : timeHist s = H := by
      unfold timeHist
      rw [hH]
      rfl
    have hth' : timeHist
        { s with
            final_time := some (s.start_time + s.step)
            options_init_flag := s.init_flag
            y := s.y_store.map
              (fun kv => (kv.1, ((alookup res kv.1).getD []).getLast?))
            y_store := s.y_store.map
              (fun kv => (kv.1, kv.2 ++ ((alookup res kv.1).getD []).drop 1))
            u_store := s.u_store.map
              (fun kv => (kv.1, kv.2 ++ ((alookup res kv.1).getD []).drop 1))
            start_time := s.start_time + s.step
            init_flag := false
            ticTime := n'
            hasTic := true
            elapsed_control_time :=
              s.elapsed_control_time ++ (if s.hasTic then [n - s.ticTime] else [])
            tacTime := if s.hasTic then some n else s.tacTime } =
        H ++ ts.drop 1 := by
      unfold timeHist
      rw [alookup_map_modify
        (fun k v => v ++ ((alookup res k).getD []).drop 1) s.y_store "time",
        hH, hts]
      rfl
    have hstart_lt : s.start_time < s.start_time + s.step :=
      pw_lt_head_getLast ts hpw0 s.start_time (s.start_time + s.step)
        hhead0 hlast0 hlen0
    have htail_lt : ∀ x ∈ ts.drop 1, s.start_time < x :=
      pw_lt_head_lt_tail ts hpw0 s.start_time hhead0
    have htail_le : ∀ x ∈ ts.drop 1, x ≤ s.start_time + s.step := by
      intro x hx
      exact pw_lt_le_getLast ts hpw0 _ hlast0 x (List.mem_of_mem_drop hx)
    refine ⟨?_, ?_, ?_, ?_, ?_, ?_, ?_, ?_, ?_, ?_, ?_⟩
    · show (s.y_store.map
          (fun kv => (kv.1, ((alookup res kv.1).getD []).getLast?))).map Prod.fst =
        (s.y_store.map
          (fun kv => (kv.1, kv.2 ++ ((alookup res kv.1).getD []).drop 1))).map Prod.fst
      rw [map_fst_modify (fun k _ => ((alookup res k).getD []).getLast?) s.y_store,
        map_fst_modify (fun k v => v ++ ((alookup res k).getD []).drop 1) s.y_store]
    · show s.u.map Prod.fst =
        (s.u_store.map
          (fun kv => (kv.1, kv.2 ++ ((alookup res kv.1).getD []).drop 1))).map Prod.fst
      rw [map_fst_modify (fun k v => v ++ ((alookup res k).getD []).drop 1) s.u_store]
      exact hinv.ukeys
    · show ((s.y_store.map
          (fun kv => (kv.1, kv.2 ++ ((alookup res kv.1).getD []).drop 1))).map Prod.fst).Nodup
      rw [map_fst_modify (fun k v => v ++ ((alookup res k).getD []).drop 1) s.y_store]
      exact hinv.ynodup
    · show ((s.u_store.map
          (fun kv => (kv.1, kv.2 ++ ((alookup res kv.1).getD []).drop 1))).map Prod.fst).Nodup
      rw [map_fst_modify (fun k v => v ++ ((alookup res k).getD []).drop 1) s.u_store]
      exact hinv.unodup
    · show "time" ∈ (s.y_store.map
          (fun kv => (kv.1, kv.2 ++ ((alookup res kv.1).getD []).drop 1))).map Prod.fst
      rw [map_fst_modify (fun k v => v ++ ((alookup res k).getD []).drop 1) s.y_store]
      exact hinv.ytime
    · show "time" ∈ (s.u_store.map
          (fun kv => (kv.1, kv.2 ++ ((alookup res kv.1).getD []).drop 1))).map Prod.fst
      rw [map_fst_modify (fun k v => v ++ ((alookup res k).getD []).drop 1) s.u_store]
      exact hinv.utime
    · rw [hth']
      refine List.pairwise_append.mpr ⟨hHt ▸ hinv.mono,
        List.Pairwise.sublist (List.drop_sublist 1 ts) hpw0, ?_⟩
      intro x hx y hy
      have hxle : x ≤ s.start_time := hinv.bounded x (hHt ▸ hx)
      exact lt_of_le_of_lt hxle (htail_lt y hy)
    · rw [hth']
      intro x hx
      rcases List.mem_append.mp hx with hx' | hx'
      · exact le_trans (hinv.bounded x (hHt ▸ hx')) (le_of_lt hstart_lt)
      · exact htail_le x hx'
    · intro kv hkv
      obtain ⟨kv0, hkv0, rfl⟩ := List.mem_map.mp hkv
      have hkey : kv0.1 ∈ s.y_store.map Prod.fst :=
        List.mem_map.mpr ⟨kv0, hkv0, rfl⟩
      have h2 := (hyc kv0.1 hkey).2
      have h3 := hinv.ylen kv0 hkv0
      rw [hHt] at h3
      simp only [hth', List.length_append, List.length_drop, h2, h3]
    · intro kv hkv
      obtain ⟨kv0, hkv0, rfl⟩ := List.mem_map.mp hkv
      have hkey : kv0.1 ∈ s.u_store.map Prod.fst :=
        List.mem_map.mpr ⟨kv0, hkv0, rfl⟩
      have h2 := (huc kv0.1 hkey).2
      have h3 := hinv.ulen kv0 hkv0
      rw [hHt] at h3
      simp only [hth', List.length_append, List.length_drop, h2, h3]
    · show alookup (s.u_store.map
          (fun kv => (kv.1, kv.2 ++ ((alookup res kv.1).getD []).drop 1))) "time" =
        alookup (s.y_store.map
          (fun kv => (kv.1, kv.2 ++ ((alookup res kv.1).getD []).drop 1))) "time"
      rw [alookup_map_modify
          (fun k v => v ++ ((alookup res k).getD []).drop 1) s.u_store "time",
        alookup_map_modify
          (fun k v => v ++ ((alookup res k).getD []).drop 1) s.y_store "time",
        hinv.uytime]

/-- C2: for every sequence of successful `advance` calls (and resets)
whose engine responses satisfy the contract — each returned
per-variable sequence is sampled on a common strictly increasing grid
spanning the closed step interval with both endpoints — the stored
`time` history is strictly increasing (hence in particular strictly
increasing after the first two samples), and every per-variable history
within `y_store`, and within `u_store`, has the same length as the
`time` history. -/
theorem C2_monotone_time_equal_lengths (c : Config) (s : TCState)
    (hwf : WFConfig c) (h : Reaches c s) :
    (timeHist s).Pairwise (· < ·) ∧
    (∀ kv ∈ s.y_store, kv.2.length = (timeHist s).length) ∧
    (∀ kv ∈ s.u_store, kv.2.length = (timeHist s).length) := by
  have hinv : TCInv s := by
    induction h with
    | init => exact TCInv_init c hwf
    | rst hr ih => exact TCInv_reset c _ hwf
    | step hr hes hadv ih => exact TCInv_step _ _ _ _ _ _ _ ih hes hadv
  exact ⟨hinv.mono, hinv.ylen, hinv.ulen⟩

/-- C2 witness: the concrete one-step trace construction → advance
over [0, 300] reaches `st1`, whose `time` history `[150, 300]` is
strictly increasing and whose stores all have length 2. -/
theorem C2_monotone_witness :
    WFConfig cfg0 ∧ EngineSpec (initState cfg0) res0 ∧
    advance (constSim res0) 1 5 (initState cfg0) [] =
      (st1, .ok [("time", some 300), ("TRoo_y", some 22)]) ∧
    ((timeHist st1).Pairwise (· < ·) ∧
     (∀ kv ∈ st1.y_store, kv.2.length = (timeHist st1).length) ∧
     (∀ kv ∈ st1.u_store, kv.2.length = (timeHist st1).length)) := by
  have hwf : WFConfig cfg0 := by
    constructor <;> decide
  have hes : EngineSpec (initState cfg0) res0 := by
    refine ⟨by decide, by decide, by decide, by decide, by decide, ?_, ?_⟩ <;>
      decide
  have hadv : advance (constSim res0) 1 5 (initState cfg0) [] =
      (st1, .ok [("time", some 300), ("TRoo_y", some 22)]) := by decide
  exact ⟨hwf, hes, hadv,
    C2_monotone_time_equal_lengths cfg0 st1 hwf
      (Reaches.step Reaches.init hes hadv)⟩

/-! ### Traces of advance and reset calls -/

/-- The data of one `advance` call: the engine response and the request,
plus the two wall-clock readings. -/
structure AdvCall where
  res : Assoc (List Int)
  u : Assoc ReqVal
  tac : Int
  tic : Int
deriving DecidableEq, Repr

inductive Ev where
  | adv (a : AdvCall)
  | rst
deriving DecidableEq, Repr

/-- Run a sequence of events.  Returns the final state and, for each
`advance` call in order, the pair (initialization flag passed to the
engine — `options['initialize']` is set to `self.initialize` at line 131
just before `fmu.simulate` — , whether the call returned normally). -/
def runEvs (c : Config) : TCState → List Ev → TCState × List (Bool × Bool)
  | s, [] => (s, [])
  | s, Ev.rst :: r => runEvs c (reset c s) r
  | s, Ev.adv a :: r =>
    let p := advance (constSim a.res) a.tac a.tic s a.u
    let q := runEvs c p.1 r
    (q.1, (s.init_flag, exceptOk p.2) :: q.2)

def call0 : AdvCall := ⟨res0, [], 1, 5⟩
def call1 : AdvCall := ⟨res1, [], 7, 9⟩

/-- An engine that succeeds exactly when it receives a true
initialization flag (and then echoes `res`); used to observe the flag
the harness hands to `fmu.simulate`. -/
def probeSim (res : Assoc (List Int)) : SimFn :=
  fun _ _ b _ => if b then .ok res else .error ()

/-- C6 counterexample: the first `advance` after construction fails
(the engine raises at line 132), so line 146 (`self.initialize =
False`) never runs; the *second* `advance` — not the first — still
hands `initialize = True` to the engine: it succeeds against an engine
that raises on a false flag, and the options entry recording the
passed flag reads true.  This refutes "true exactly on the first
advance after construction or a reset, and false on every subsequent
advance until the next reset". -/
theorem C6_counterexample :
    (advance failSim 1 5 (initState cfg0) []).2 = .error Err.engine ∧
    (advance (probeSim res0) 7 9
        (advance failSim 1 5 (initState cfg0) []).1 []).2 =
      .ok [("time", some 300), ("TRoo_y", some 22)] ∧
    (advance (probeSim res0) 7 9
        (advance failSim 1 5 (initState cfg0) []).1 []).1.options_init_flag =
      true := by
  decide

/-- One `advance` call together with its engine behavior for that call
(which may raise). -/
structure AdvCallS where
  sim : SimFn
  u : Assoc ReqVal
  tac : Int
  tic : Int

inductive EvS where
  | adv (a : AdvCallS)
  | rst

/-- Run a sequence of events against per-call engines.  For each
`advance` call, in order, records the pair (initialization flag passed
to the engine — line 131 copies `self.initialize` into the options
just before `fmu.simulate` — , whether the call returned normally). -/
def runEvsS (c : Config) : TCState → List EvS → TCState × List (Bool × Bool)
  | s, [] => (s, [])
  | s, EvS.rst :: r => runEvsS c (reset c s) r
  | s, EvS.adv a :: r =>
    let p := advance a.sim a.tac a.tic s a.u
    let q := runEvsS c p.1 r
    (q.1, (s.init_flag, exceptOk p.2) :: q.2)

/-- The flag sequence the code produces for a run with the given
per-call success bits: true until the first *successful* advance since
construction or the last reset, false from then on. -/
def expFlagsOks : Bool → List EvS → List Bool → List Bool
  | _, [], _ => []
  | b, EvS.adv _ :: r, ok :: oks =>
    b :: expFlagsOks (if ok then false else b) r oks
  | _, EvS.adv _ :: _, [] => []
  | _, EvS.rst :: r, oks => expFlagsOks true r oks

lemma runEvsS_flags (c : Config) :
    ∀ (evs : List EvS) (s : TCState),
    (runEvsS c s evs).2.map Prod.fst =
      expFlagsOks s.init_flag evs ((runEvsS c s evs).2.map Prod.snd)
  | [], _ => rfl
  | EvS.rst :: r, s => by
    simp only [runEvsS, expFlagsOks]
    have h := runEvsS_flags c r (reset c s)
    rw [show (reset c s).init_flag = true from rfl] at h
    exact h
  | EvS.adv a :: r, s => by
    have hpost := advance_post a.sim a.tac a.tic s a.u
    have h := runEvsS_flags c r (advance a.sim a.tac a.tic s a.u).1
    simp only [runEvsS, List.map_cons, expFlagsOks]
    cases hok : exceptOk (advance a.sim a.tac a.tic s a.u).2 with
    | true =>
      rw [(hpost.2.2.2.2.2.1 hok).1] at h
      simpa using h
    | false =>
      rw [(hpost.2.2.2.2.2.2 hok).1] at h
      simpa using h

/-- C6 (amended): the initialization flag the harness hands to the
engine on an `advance` call is exactly the current `initialize` field
(replacing the flag argument by it changes nothing observable);
construction and `reset` set the field true, and over any sequence of
`advance` and `reset` calls — successful or not — the flag passed is
true precisely until the first advance since construction or the last
reset that *completes successfully*: a failed advance leaves the flag
set, so the next advance passes true again. -/
theorem C6_init_flag_success_once (c : Config) (s : TCState)
    (sim : SimFn) (n n' : Int) (s' : TCState) (u : Assoc ReqVal)
    (evs : List EvS) :
    ((initState c).init_flag = true) ∧
    ((reset c s).init_flag = true) ∧
    (advance sim n n' s' u =
      advance (fun t0 t1 _ io => sim t0 t1 s'.init_flag io) n n' s' u) ∧
    ((runEvsS c (initState c) evs).2.map Prod.fst =
      expFlagsOks true evs ((runEvsS c (initState c) evs).2.map Prod.snd)) := by
  refine ⟨rfl, rfl, ?_, ?_⟩
  · rcases hb : buildInput s'.inputs_metadata s'.start_time u with e | io
    · rw [advance_buildFail sim n n' s' u e hb,
        advance_buildFail _ n n' s' u e hb]
    · simp [advance, hb]
  · have h := runEvsS_flags c evs (initState c)
    rw [show (initState c).init_flag = true from rfl] at h
    exact h

lemma runEvs_elapsed_ok (c : Config) :
    ∀ (as : List AdvCall) (s : TCState),
    (∀ p ∈ (runEvs c s (as.map Ev.adv)).2, p.2 = true) →
    (runEvs c s (as.map Ev.adv)).1.elapsed_control_time.length =
      s.elapsed_control_time.length +
        (if s.hasTic then as.length else as.length - 1)
  | [], s, _ => by simp [runEvs]
  | a :: t, s, hok => by
    have hok' : ∀ p ∈
        (runEvs c (advance (constSim a.res) a.tac a.tic s a.u).1
          (t.map Ev.adv)).2, p.2 = true := by
      intro p hp
      exact hok p (by simp only [List.map_cons, runEvs]; exact List.mem_cons_of_mem _ hp)
    have hhd : exceptOk (advance (constSim a.res) a.tac a.tic s a.u).2 = true := by
      exact hok _ (by simp only [List.map_cons, runEvs]; exact List.mem_cons_self _ _)
    have hpost := advance_post (constSim a.res) a.tac a.tic s a.u
    have helap : (advance (constSim a.res) a.tac a.tic s a.u).1.elapsed_control_time.length =
        s.elapsed_control_time.length + (if s.hasTic then 1 else 0) := by
      rw [hpost.1, List.length_append]
      by_cases h : s.hasTic <;> simp [h]
    have htic : (advance (constSim a.res) a.tac a.tic s a.u).1.hasTic = true :=
      (hpost.2.2.2.2.2.1 hhd).2.1
    have ih := runEvs_elapsed_ok c t
      (advance (constSim a.res) a.tac a.tic s a.u).1 hok'
    simp only [List.map_cons, runEvs]
    rw [ih, helap, htic]
    by_cases h : s.hasTic <;> (simp [h]; try omega)

/-- C7 (amended): after `N` successful `advance` calls following
construction, the elapsed-time log has exactly `N - 1` entries — the
first call appends nothing because no pending timestamp exists.  After
a `reset()` of a state that carries a pending timestamp (any state in
which an `advance` has completed successfully, even before the reset),
the timestamp survives the reset, so each of the `N` subsequent
successful `advance` calls appends an entry, leaving exactly `N`. -/
theorem C7_elapsed_log_length (c : Config) (as bs : List AdvCall)
    (s : TCState)
    (hok1 : ∀ p ∈ (runEvs c (initState c) (as.map Ev.adv)).2, p.2 = true)
    (hs : s.hasTic = true)
    (hok2 : ∀ p ∈ (runEvs c (reset c s) (bs.map Ev.adv)).2, p.2 = true) :
    (runEvs c (initState c) (as.map Ev.adv)).1.elapsed_control_time.length =
      as.length - 1 ∧
    (runEvs c (reset c s) (bs.map Ev.adv)).1.elapsed_control_time.length =
      bs.length := by
  constructor
  · have h := runEvs_elapsed_ok c as (initState c) hok1
    rw [h, show (initState c).elapsed_control_time = [] from rfl,
      show (initState c).hasTic = false from rfl]
    simp
  · have h := runEvs_elapsed_ok c bs (reset c s) hok2
    rw [h]
    have h1 : (reset c s).elapsed_control_time = [] := rfl
    have h2 : (reset c s).hasTic = s.hasTic := rfl
    rw [h1, h2, hs]
    simp

/-- C7 counterexample: construct, one successful advance, reset, then
one successful advance (`N = 1` after the reset).  The stale pending
timestamp survives the reset, so the elapsed-time log has 1 entry, not
`N - 1 = 0` as the claim states. -/
theorem C7_counterexample :
    ((runEvs cfg0 (initState cfg0)
        [Ev.adv call0, Ev.rst, Ev.adv call0]).2.map Prod.snd = [true, true]) ∧
    (runEvs cfg0 (initState cfg0)
        [Ev.adv call0, Ev.rst, Ev.adv call0]).1.elapsed_control_time.length
      = 1 := by
  decide

/-- C7 witness for the amended theorem: two advances from construction
leave 1 entry; one advance after a reset of `st1` also leaves 1 entry. -/
theorem C7_elapsed_witness :
    (∀ p ∈ (runEvs cfg0 (initState cfg0)
        [Ev.adv call0, Ev.adv call1]).2, p.2 = true) ∧
    st1.hasTic = true ∧
    (∀ p ∈ (runEvs cfg0 (reset cfg0 st1) [Ev.adv call0]).2, p.2 = true) ∧
    (runEvs cfg0 (initState cfg0)
        [Ev.adv call0, Ev.adv call1]).1.elapsed_control_time.length = 1 ∧
    (runEvs cfg0 (reset cfg0 st1)
        [Ev.adv call0]).1.elapsed_control_time.length = 1 := by
  refine ⟨by decide, by decide, by decide, ?_, ?_⟩
  · exact (C7_elapsed_log_length cfg0 [call0, call1] [call0] st1
      (by decide) (by decide) (by decide)).1
  · exact (C7_elapsed_log_length cfg0 [call0, call1] [call0] st1
      (by decide) (by decide) (by decide)).2
